import Mathlib

/-!
Verification of the batching / training-loop core of `src/bts/bts_pytorch.py`.

The Python source is shallowly embedded below:
* `make_batchset` (batch planner) together with its two loop bodies
  `sliceLoop` (policy `none`) and `adaptiveLoop` (policies `input`/`output`);
* `batch_converter` (batch materializer) via the intermediate values
  `convXs`, `convFilteredIdx`, `convSortedIdx`, …, `convLabels`;
* `PytorchSeqUpdaterKaldi.update_core` as `update_core`, with the opaque
  torch collaborators (backward, gradient clipping, optimizer step) passed
  in as function parameters;
* `PytorchSeqEvaluaterKaldi.evaluate` as `evaluate`, with per-batch
  evaluation modelled as a fallible function.

Machine integers of the source are modelled as `Nat`/`Int`; the Python
exceptions that the embedded code paths can raise (`IndexError`,
`ZeroDivisionError`) and the non-termination of the fixed-size slicing loop
at batch size 0 are made explicit in an error type, so that the embedding is
total while staying faithful to the source's partiality.
-/

namespace Bts

/-- One utterance record as seen by the batch planner: the manifest key and
the declared `ilen`/`olen` fields (the source reads only these two fields of
the record in `make_batchset`). -/
structure Utt where
  uid : String
  ilen : Nat
  olen : Nat
deriving DecidableEq, Repr, Inhabited

/-- The ways the embedded `make_batchset` can fail to return a plan:
`indexError` models `sorted_data[start]` on an empty dataset,
`zeroDivisionError` models `int(ilen / max_length_in)` with a zero
threshold, and `nonTermination` marks the parameter region where the
Python `while True` loop of the shuffled policy never exits
(batch size 0 with nonempty data). -/
inductive BatchsetErr
  | indexError
  | zeroDivisionError
  | nonTermination
deriving DecidableEq, Repr

/-- The `while True` slicing loop of the `batch_sort_key is None` branch
(`bts_pytorch.py` lines 42-47): `end = min(len(data), start + batch_size)`,
append `data[start:end]`, break when `end == len(data)`, else continue from
`end`.  The loop is driven by fuel; `data.length + 1` units always suffice
when `batch_size ≥ 1`. -/
def sliceLoop (data : List Utt) (batch_size : Nat) : Nat → Nat → List (List Utt)
  | 0, _ => []
  | fuel + 1, start =>
    let e := min data.length (start + batch_size)
    let g := (data.drop start).take (e - start)
    if e = data.length then [g] else g :: sliceLoop data batch_size fuel e

/-- The `while True` loop shared by the `input` and `output` branches
(`bts_pytorch.py` lines 55-67 and 75-87; the two loop bodies are textually
identical): the local `ilen` is read from the record's `olen` field and the
local `olen` from the record's `ilen` field (the `# reverse` comments in the
source), `factor = max(ilen / max_length_in, olen / max_length_out)`,
`b = max(1, batch_size / (1 + factor))`, then slice as in `sliceLoop`. -/
def adaptiveLoop (sorted_data : List Utt) (batch_size max_length_in max_length_out : Nat) :
    Nat → Nat → List (List Utt)
  | 0, _ => []
  | fuel + 1, start =>
    let ilen := (sorted_data.getD start default).olen
    let olen := (sorted_data.getD start default).ilen
    let factor := max (ilen / max_length_in) (olen / max_length_out)
    let b := max 1 (batch_size / (1 + factor))
    let e := min sorted_data.length (start + b)
    let g := (sorted_data.drop start).take (e - start)
    if e = sorted_data.length then [g]
    else g :: adaptiveLoop sorted_data batch_size max_length_in max_length_out fuel e

/-- `make_batchset` (`bts_pytorch.py` lines 34-96).  The `random.sample`
shuffle of the `None` policy is the only source of nondeterminism; it is
passed in as the function parameter `shuffle`.  `sorted(..., reverse=True)`
is a stable descending sort, modelled by `List.insertionSort` with a
reflexive descending relation (insertion sort is stable).  The final `else`
branch of the source constructs `ValueError(...)` but never raises it, so an
unrecognized `batch_sort_key` falls through with `minibatch` still `[]` and
the function returns an empty plan; the embedding reproduces this.  The
trailing truncation `minibatch[:num_batches]` applies when
`num_batches > 0`. -/
def make_batchset (shuffle : List Utt → List Utt) (data : List Utt)
    (batch_size max_length_in max_length_out num_batches : Nat)
    (batch_sort_key : Option String) : Except BatchsetErr (List (List Utt)) :=
  let branch : Except BatchsetErr (List (List Utt)) :=
    if batch_sort_key = none then
      let shuffled_data := shuffle data
      if batch_size = 0 ∧ shuffled_data ≠ [] then
        Except.error BatchsetErr.nonTermination
      else
        Except.ok (sliceLoop shuffled_data batch_size (shuffled_data.length + 1) 0)
    else if batch_sort_key = some "input" then
      let sorted_data := data.insertionSort (fun a b => b.olen ≤ a.olen)
      if sorted_data = [] then Except.error BatchsetErr.indexError
      else if max_length_in = 0 ∨ max_length_out = 0 then
        Except.error BatchsetErr.zeroDivisionError
      else
        Except.ok (adaptiveLoop sorted_data batch_size max_length_in max_length_out
          (sorted_data.length + 1) 0)
    else if batch_sort_key = some "output" then
      let sorted_data := data.insertionSort (fun a b => b.ilen ≤ a.ilen)
      if sorted_data = [] then Except.error BatchsetErr.indexError
      else if max_length_in = 0 ∨ max_length_out = 0 then
        Except.error BatchsetErr.zeroDivisionError
      else
        Except.ok (adaptiveLoop sorted_data batch_size max_length_in max_length_out
          (sorted_data.length + 1) 0)
    else
      Except.ok []
  match branch with
  | Except.error e => Except.error e
  | Except.ok minibatch =>
    Except.ok (if 0 < num_batches then minibatch.take num_batches else minibatch)

/-- One utterance record as seen by the batch materializer: `shape0` is
`output[0]['shape'][0]` (the declared output dimensionality used to derive
the eos id), `tokenid` is the parsed `output[0]['tokenid']` sequence, and
`feat` is the feature matrix that `kaldi_io_py.read_mat` resolves
`input[0]['feat']` to (rows are time frames).  Feature entries are modelled
as integers: no claim inspects their numeric values, only row counts. -/
structure ConvUtt where
  shape0 : Nat
  tokenid : List Int
  feat : List (List Int)
deriving DecidableEq, Repr, Inhabited

/-- The embedded `batch_converter` can fail only with `IndexError`, from
`batch[0]` on an empty group. -/
inductive ConvErr
  | indexError
deriving DecidableEq, Repr

/-- Maximum length of the sequences in a list (0 for an empty list). -/
def maxLen (xs : List (List α)) : Nat :=
  (xs.map List.length).foldr max 0

/-- Modelled from the spec: `pad_list` is imported from `e2e_asr_attctc_th`,
whose source is not in the repository snapshot.  Per the spec's Batch
Materializer contract it right-pads every sequence of the list with the pad
value to the batch maximum length. -/
def pad_list (xs : List (List α)) (pad : α) : List (List α) :=
  xs.map (fun x => x ++ List.replicate (maxLen xs - x.length) pad)

/-- The eos id: `str(int(batch[0]['output'][0]['shape'][0]) - 1)`, later
parsed back to an integer when the token rows are converted
(`bts_pytorch.py` line 104). -/
def convEos (batch : List ConvUtt) : Int :=
  (batch.headD default).shape0 - 1

/-- The token rows before filtering/sorting: each utterance's token sequence
with the eos id appended (`bts_pytorch.py` line 107). -/
def convXs (batch : List ConvUtt) : List (List Int) :=
  batch.map (fun b => b.tokenid ++ [convEos batch])

/-- The feature rows before filtering/sorting (`bts_pytorch.py` line 108). -/
def convYs (batch : List ConvUtt) : List (List (List Int)) :=
  batch.map (fun b => b.feat)

/-- `filtered_idx = filter(lambda i: len(xs[i]) > 0, range(len(ys)))`
(`bts_pytorch.py` line 111). -/
def convFilteredIdx (batch : List ConvUtt) : List Nat :=
  (List.range (convYs batch).length).filter
    (fun i => 0 < ((convXs batch).getD i []).length)

/-- `sorted_idx = sorted(filtered_idx, key=lambda i: -len(xs[i]))`
(`bts_pytorch.py` line 112): a stable sort, descending by token-row
length, modelled by the stable `List.insertionSort`. -/
def convSortedIdx (batch : List ConvUtt) : List Nat :=
  (convFilteredIdx batch).insertionSort
    (fun i j => ((convXs batch).getD j []).length ≤ ((convXs batch).getD i []).length)

/-- The token rows after sorting (`bts_pytorch.py` line 113). -/
def convXsSorted (batch : List ConvUtt) : List (List Int) :=
  (convSortedIdx batch).map (fun i => (convXs batch).getD i [])

/-- The feature rows after sorting (`bts_pytorch.py` line 114). -/
def convYsSorted (batch : List ConvUtt) : List (List (List Int)) :=
  (convSortedIdx batch).map (fun i => (convYs batch).getD i [])

/-- `ilens`: the true token-row lengths, in sorted row order
(`bts_pytorch.py` line 117). -/
def convIlens (batch : List ConvUtt) : List Nat :=
  (convXsSorted batch).map List.length

/-- `olens`: the true feature-row counts, in sorted row order
(`bts_pytorch.py` line 118). -/
def convOlens (batch : List ConvUtt) : List Nat :=
  (convYsSorted batch).map List.length

/-- The padded token tensor `xs = pad_list(xs, 0)` (`bts_pytorch.py`
line 121). -/
def convXsPad (batch : List ConvUtt) : List (List Int) :=
  pad_list (convXsSorted batch) 0

/-- The feature width used for zero pad rows (numpy arrays have one row
width per matrix; `pad_list` pads along the time axis). -/
def convFeatDim (batch : List ConvUtt) : Nat :=
  (((convYsSorted batch).headD []).headD []).length

/-- The padded feature tensor `ys = pad_list(ys, 0)` (`bts_pytorch.py`
line 122): zero rows are appended along the time axis. -/
def convYsPad (batch : List ConvUtt) : List (List (List Int)) :=
  pad_list (convYsSorted batch) (List.replicate (convFeatDim batch) 0)

/-- The start index of the Python slice `a[k:]` over a sequence of length
`n`: a nonnegative `k` is clamped to `n`, a negative `k` counts from the
end and is clamped to 0. -/
def sliceStartIdx (k : Int) (n : Nat) : Nat :=
  if 0 ≤ k then min k.toNat n else (n + k).toNat

/-- One row of the stop-label tensor: `labels[i, l - 1:] = 1` over a row of
width `n`, everything before the slice start left at the `new_zeros` value
(`bts_pytorch.py` lines 125-127; the source carries the comment
`# l or l-1?` on this line). -/
def stopLabelRow (l : Int) (n : Nat) : List Int :=
  (List.range n).map (fun j => if sliceStartIdx (l - 1) n ≤ j then 1 else 0)

/-- The stop-label tensor: one row per `olens` entry, of width
`ys.size(1)` = the padded time length (`bts_pytorch.py` lines 125-127). -/
def convLabels (batch : List ConvUtt) : List (List Int) :=
  (convOlens batch).map
    (fun l : Nat => stopLabelRow (l : Int) (maxLen (convYsSorted batch)))

/-- The tensors produced by `batch_converter` with `return_targets=True`.
(The `return_targets=False` call site returns the `xs`, `ilens`, `ys`
projection of the same record, and the `.cuda()` moves do not change the
values.) -/
structure MaterializedBatch where
  xs : List (List Int)
  ilens : List Nat
  ys : List (List (List Int))
  labels : List (List Int)
  olens : List Nat
deriving DecidableEq, Repr

/-- `batch_converter` (`bts_pytorch.py` lines 99-137), applied to the inner
minibatch group (the source first unwraps `batch = batch[0]` around the
iterator's singleton list; the embedding takes the group directly).
`batch[0]` on an empty group raises `IndexError`. -/
def batch_converter (batch : List ConvUtt) : Except ConvErr MaterializedBatch :=
  if batch = [] then Except.error ConvErr.indexError
  else
    Except.ok
      { xs := convXsPad batch
        ilens := convIlens batch
        ys := convYsPad batch
        labels := convLabels batch
        olens := convOlens batch }

/-- The value `math.isnan` is applied to: either a finite numeric value or
not-a-number.  The finite payload is a rational, standing in for the float
gradient norm; no claim depends on float rounding, only on the NaN test. -/
inductive FloatVal
  | nan
  | fin (q : ℚ)
deriving DecidableEq

/-- `math.isnan(grad_norm)` (`bts_pytorch.py` line 222). -/
def FloatVal.isNan : FloatVal → Bool
  | FloatVal.nan => true
  | FloatVal.fin _ => false

/-- The torch state `update_core` acts on: the model parameters and the
gradient buffers, both opaque to the embedded control flow. -/
structure TrainState (P G : Type) where
  params : P
  grads : G
deriving DecidableEq, Repr

/-- `PytorchSeqUpdaterKaldi.update_core` (`bts_pytorch.py` lines 194-225).
The torch collaborators are parameters: `backward` stands for
`loss = model(*batch); optimizer.zero_grad(); loss.backward()` and yields
the gradient buffers computed from the current parameters and the batch;
`clip` stands for `torch.nn.utils.clip_grad_norm_` and yields the clipped
gradients together with the (possibly NaN) norm it returns; `optStep`
stands for `optimizer.step()`.  The returned string list collects the
warnings the source logs.  Control flow from the source: the iteration is
skipped when the group is smaller than the gpu count; the optimizer step is
skipped when the post-clip norm is NaN. -/
def update_core {α P G : Type} (num_gpu : Nat) (batch : List α)
    (backward : P → List α → G) (clip : G → G × FloatVal) (optStep : P → G → P)
    (s : TrainState P G) : TrainState P G × List String :=
  if batch.length < num_gpu then
    (s, ["batch size is less than number of gpus. Ignored"])
  else
    let g := backward s.params batch
    let clipped := clip g
    if clipped.2.isNan then
      ({ params := s.params, grads := clipped.1 },
        ["grad norm is nan. Do not update model."])
    else
      ({ params := optStep s.params clipped.1, grads := clipped.1 }, [])

/-- Whether the model is in training or evaluation mode
(`model.train()` / `model.eval()`). -/
inductive Mode
  | train
  | eval
deriving DecidableEq, Repr

/-- Run the per-batch body of the evaluation loop over the batch stream in
order, stopping at the first batch whose evaluation raises
(`self.converter(batch); self.model(*batch)` inside the `for` loop of
`PytorchSeqEvaluaterKaldi.evaluate`, `bts_pytorch.py` lines 166-176). -/
def runBatches {B E Obs : Type} (runBatch : B → Except E Obs) :
    List B → Except E (List Obs)
  | [] => Except.ok []
  | b :: bs =>
    match runBatch b with
    | Except.error e => Except.error e
    | Except.ok o =>
      match runBatches runBatch bs with
      | Except.error e => Except.error e
      | Except.ok os => Except.ok (o :: os)

/-- `PytorchSeqEvaluaterKaldi.evaluate` (`bts_pytorch.py` lines 150-180),
restricted to the model-mode bookkeeping and the per-batch observations the
claims are about.  The source sets `self.model.eval()`, runs the loop with
no `try`/`finally`, and calls `self.model.train()` only after the loop
completes; an exception raised by a batch propagates out of `evaluate`
before `self.model.train()` is reached, leaving the model in evaluation
mode.  The result is the final model mode together with either the list of
per-batch observations (success) or the propagated exception. -/
def evaluate {B E Obs : Type} (batches : List B) (runBatch : B → Except E Obs) :
    Mode × Except E (List Obs) :=
  match runBatches runBatch batches with
  | Except.error e => (Mode.eval, Except.error e)
  | Except.ok os => (Mode.train, Except.ok os)

/-! ### Loop lemmas for the batch planner -/

theorem sliceLoop_flatten (data : List Utt) (batch_size : Nat) (hbs : 1 ≤ batch_size) :
    ∀ fuel start, data.length < fuel + start →
      (sliceLoop data batch_size fuel start).flatten = data.drop start := by
  intro fuel
  induction fuel with
  | zero =>
    intro start h
    simp only [Nat.zero_add] at h
    simp only [sliceLoop, List.flatten_nil]
    exact (List.drop_eq_nil_of_le (Nat.le_of_lt h)).symm
  | succ fuel ih =>
    intro start h
    simp only [sliceLoop]
    by_cases hend : min data.length (start + batch_size) = data.length
    · rw [if_pos hend, List.flatten_cons, List.flatten_nil, List.append_nil, hend]
      exact List.take_of_length_le (by simp)
    · have he : min data.length (start + batch_size) = start + batch_size := by omega
      rw [if_neg hend, List.flatten_cons, he]
      rw [ih (start + batch_size) (by omega)]
      have h1 : data.drop (start + batch_size) =
          (data.drop start).drop batch_size := by
        rw [List.drop_drop]
      rw [h1]
      have h2 : start + batch_size - start = batch_size := by omega
      rw [h2, List.take_append_drop]

theorem sliceLoop_ne_nil (data : List Utt) (batch_size fuel start : Nat)
    (hfuel : 0 < fuel) : sliceLoop data batch_size fuel start ≠ [] := by
  match fuel, hfuel with
  | fuel + 1, _ =>
    simp only [sliceLoop]
    by_cases hend : min data.length (start + batch_size) = data.length <;>
      simp [hend]

theorem sliceLoop_sizes (data : List Utt) (batch_size : Nat) (hbs : 1 ≤ batch_size) :
    ∀ fuel start, data.length < fuel + start → start < data.length →
      (∀ g ∈ (sliceLoop data batch_size fuel start).dropLast, g.length = batch_size) ∧
      (∀ lg, (sliceLoop data batch_size fuel start).getLast? = some lg →
        lg.length = if (data.length - start) % batch_size = 0 then batch_size
                    else (data.length - start) % batch_size) := by
  intro fuel
  induction fuel with
  | zero =>
    intro start h hstart
    omega
  | succ fuel ih =>
    intro start h hstart
    simp only [sliceLoop]
    by_cases hend : min data.length (start + batch_size) = data.length
    · have hsize : ((data.drop start).take
          (min data.length (start + batch_size) - start)).length
          = data.length - start := by
        simp only [List.length_take, List.length_drop]
        omega
      rw [if_pos hend]
      refine ⟨?_, ?_⟩
      · intro g hg
        simp at hg
      · intro lg hlg
        simp only [List.getLast?_singleton, Option.some.injEq] at hlg
        subst hlg
        rw [hsize]
        by_cases hcase : data.length - start = batch_size
        · rw [hcase]
          simp
        · have hmod : (data.length - start) % batch_size = data.length - start :=
            Nat.mod_eq_of_lt (by omega)
          rw [hmod, if_neg (by omega)]
    · have he : min data.length (start + batch_size) = start + batch_size := by omega
      have hlt : start + batch_size < data.length := by omega
      have hsize : ((data.drop start).take
          (min data.length (start + batch_size) - start)).length = batch_size := by
        simp only [List.length_take, List.length_drop]
        omega
      have hne := sliceLoop_ne_nil data batch_size fuel (start + batch_size)
        (by omega)
      obtain ⟨ihA, ihB⟩ := ih (start + batch_size) (by omega) hlt
      rw [if_neg hend, he]
      refine ⟨?_, ?_⟩
      · intro g hg
        rw [List.dropLast_cons_of_ne_nil hne, List.mem_cons] at hg
        rcases hg with hg | hg
        · rw [hg, ← he]; exact hsize
        · exact ihA g hg
      · intro lg hlg
        rw [List.getLast?_cons] at hlg
        cases htail : (sliceLoop data batch_size fuel (start + batch_size)).getLast? with
        | none =>
          rw [List.getLast?_eq_none_iff] at htail
          exact absurd htail hne
        | some y =>
          rw [htail, Option.getD_some] at hlg
          have hy := ihB y htail
          have hmod : (data.length - start) % batch_size
              = (data.length - (start + batch_size)) % batch_size := by
            have h1 : data.length - start
                = (data.length - (start + batch_size)) + batch_size := by omega
            rw [h1, Nat.add_mod_right]
          injection hlg with hlg
          rw [← hlg, hy, hmod]

theorem adaptiveLoop_flatten (d : List Utt)
    (batch_size max_length_in max_length_out : Nat) :
    ∀ fuel start, d.length < fuel + start →
      (adaptiveLoop d batch_size max_length_in max_length_out fuel start).flatten
        = d.drop start := by
  intro fuel
  induction fuel with
  | zero =>
    intro start h
    simp only [Nat.zero_add] at h
    simp only [adaptiveLoop, List.flatten_nil]
    exact (List.drop_eq_nil_of_le (Nat.le_of_lt h)).symm
  | succ fuel ih =>
    intro start h
    simp only [adaptiveLoop]
    set b := max 1 (batch_size /
      (1 + max ((d.getD start default).olen / max_length_in)
        ((d.getD start default).ilen / max_length_out))) with hb
    have hb1 : 1 ≤ b := le_max_left _ _
    by_cases hend : min d.length (start + b) = d.length
    · rw [if_pos hend, List.flatten_cons, List.flatten_nil, List.append_nil, hend]
      exact List.take_of_length_le (by simp)
    · have he : min d.length (start + b) = start + b := by omega
      rw [if_neg hend, List.flatten_cons, he]
      rw [ih (start + b) (by omega)]
      have h1 : d.drop (start + b) = (d.drop start).drop b := by
        rw [List.drop_drop]
      rw [h1]
      have h2 : start + b - start = b := by omega
      rw [h2, List.take_append_drop]

theorem adaptiveLoop_group_bounds (d : List Utt)
    (batch_size max_length_in max_length_out : Nat) (hbs : 1 ≤ batch_size) :
    ∀ fuel start, d.length < fuel + start → start < d.length →
      ∀ g ∈ adaptiveLoop d batch_size max_length_in max_length_out fuel start,
        1 ≤ g.length ∧ g.length ≤ batch_size := by
  intro fuel
  induction fuel with
  | zero =>
    intro start h hstart
    omega
  | succ fuel ih =>
    intro start h hstart
    simp only [adaptiveLoop]
    set f := max ((d.getD start default).olen / max_length_in)
      ((d.getD start default).ilen / max_length_out) with hf
    set b := max 1 (batch_size / (1 + f)) with hb
    have hb1 : 1 ≤ b := le_max_left _ _
    have hbbs : b ≤ batch_size := by
      have hdiv : batch_size / (1 + f) ≤ batch_size := Nat.div_le_self _ _
      omega
    by_cases hend : min d.length (start + b) = d.length
    · intro g hg
      rw [if_pos hend, List.mem_singleton] at hg
      subst hg
      simp only [List.length_take, List.length_drop]
      omega
    · have he : min d.length (start + b) = start + b := by omega
      intro g hg
      rw [if_neg hend, he, List.mem_cons] at hg
      rcases hg with hg | hg
      · subst hg
        simp only [List.length_take, List.length_drop]
        omega
      · exact ih (start + b) (by omega) (by omega) g hg

/-! ### Branch characterizations of `make_batchset` -/

theorem insertionSort_ne_nil {α : Type} (r : α → α → Prop) [DecidableRel r]
    (l : List α) (hl : l ≠ []) : l.insertionSort r ≠ [] := by
  intro hnil
  have hperm := List.perm_insertionSort r l
  rw [hnil] at hperm
  exact hl hperm.symm.eq_nil

theorem make_batchset_none_eq (shuffle : List Utt → List Utt) (data : List Utt)
    (batch_size max_length_in max_length_out num_batches : Nat) (hbs : 1 ≤ batch_size) :
    make_batchset shuffle data batch_size max_length_in max_length_out num_batches none
      = Except.ok (
          if 0 < num_batches then
            (sliceLoop (shuffle data) batch_size
              ((shuffle data).length + 1) 0).take num_batches
          else sliceLoop (shuffle data) batch_size ((shuffle data).length + 1) 0) := by
  have hcond : ¬(batch_size = 0 ∧ shuffle data ≠ []) := by
    rintro ⟨h0, -⟩
    omega
  simp [make_batchset, if_neg hcond]

theorem make_batchset_input_eq (shuffle : List Utt → List Utt) (data : List Utt)
    (batch_size max_length_in max_length_out num_batches : Nat)
    (hdata : data ≠ []) (hmi : max_length_in ≠ 0) (hmo : max_length_out ≠ 0) :
    make_batchset shuffle data batch_size max_length_in max_length_out num_batches
        (some "input")
      = Except.ok (
          if 0 < num_batches then
            (adaptiveLoop (data.insertionSort (fun a b => b.olen ≤ a.olen))
              batch_size max_length_in max_length_out
              ((data.insertionSort (fun a b => b.olen ≤ a.olen)).length + 1) 0).take
              num_batches
          else
            adaptiveLoop (data.insertionSort (fun a b => b.olen ≤ a.olen))
              batch_size max_length_in max_length_out
              ((data.insertionSort (fun a b => b.olen ≤ a.olen)).length + 1) 0) := by
  have hsorted := insertionSort_ne_nil (fun a b : Utt => b.olen ≤ a.olen) data hdata
  have hz : ¬(max_length_in = 0 ∨ max_length_out = 0) := by
    rintro (h | h) <;> simp_all
  simp [make_batchset, if_neg hsorted, if_neg hz]

theorem make_batchset_output_eq (shuffle : List Utt → List Utt) (data : List Utt)
    (batch_size max_length_in max_length_out num_batches : Nat)
    (hdata : data ≠ []) (hmi : max_length_in ≠ 0) (hmo : max_length_out ≠ 0) :
    make_batchset shuffle data batch_size max_length_in max_length_out num_batches
        (some "output")
      = Except.ok (
          if 0 < num_batches then
            (adaptiveLoop (data.insertionSort (fun a b => b.ilen ≤ a.ilen))
              batch_size max_length_in max_length_out
              ((data.insertionSort (fun a b => b.ilen ≤ a.ilen)).length + 1) 0).take
              num_batches
          else
            adaptiveLoop (data.insertionSort (fun a b => b.ilen ≤ a.ilen))
              batch_size max_length_in max_length_out
              ((data.insertionSort (fun a b => b.ilen ≤ a.ilen)).length + 1) 0) := by
  have hsorted := insertionSort_ne_nil (fun a b : Utt => b.ilen ≤ a.ilen) data hdata
  have hz : ¬(max_length_in = 0 ∨ max_length_out = 0) := by
    rintro (h | h) <;> simp_all
  simp [make_batchset, if_neg hsorted, if_neg hz]

/-! ### Claim theorems for the batch planner -/

/-- C1: for every policy selector among `none`, `"input"` and `"output"`, and
batch-count cap 0 (unlimited), any Batch Plan that `make_batchset` returns
partitions the input utterance list: the concatenation of the plan's groups
is a permutation of the input, so every utterance appears in exactly one
group, with no duplicates and no omissions.  The shuffle of policy `none` is
an arbitrary permutation of the input. -/
theorem make_batchset_partitions
    (shuffle : List Utt → List Utt) (data : List Utt)
    (batch_size max_length_in max_length_out : Nat) (batch_sort_key : Option String)
    (hkey : batch_sort_key = none ∨ batch_sort_key = some "input" ∨
      batch_sort_key = some "output")
    (hbs : 1 ≤ batch_size)
    (hshuffle : (shuffle data).Perm data)
    (plan : List (List Utt))
    (hplan : make_batchset shuffle data batch_size max_length_in max_length_out 0
      batch_sort_key = Except.ok plan) :
    plan.flatten.Perm data := by
  rcases hkey with hk | hk | hk <;> subst hk
  · rw [make_batchset_none_eq shuffle data batch_size max_length_in max_length_out 0
      hbs] at hplan
    simp only [Nat.lt_irrefl, if_false, Except.ok.injEq] at hplan
    rw [← hplan, sliceLoop_flatten (shuffle data) batch_size hbs _ 0 (by omega),
      List.drop_zero]
    exact hshuffle
  · by_cases hdata : data = []
    · subst hdata
      have herr : make_batchset shuffle [] batch_size max_length_in max_length_out 0
          (some "input") = Except.error BatchsetErr.indexError := rfl
      rw [herr] at hplan
      cases hplan
    · by_cases hz : max_length_in = 0 ∨ max_length_out = 0
      · have hsorted := insertionSort_ne_nil (fun a b : Utt => b.olen ≤ a.olen) data hdata
        have herr : make_batchset shuffle data batch_size max_length_in max_length_out 0
            (some "input") = Except.error BatchsetErr.zeroDivisionError := by
          simp [make_batchset, if_neg hsorted, hz]
        rw [herr] at hplan
        cases hplan
      · push_neg at hz
        rw [make_batchset_input_eq shuffle data batch_size max_length_in max_length_out 0
          hdata hz.1 hz.2] at hplan
        simp only [Nat.lt_irrefl, if_false, Except.ok.injEq] at hplan
        rw [← hplan, adaptiveLoop_flatten _ _ _ _ _ 0 (by omega), List.drop_zero]
        exact List.perm_insertionSort _ data
  · by_cases hdata : data = []
    · subst hdata
      have herr : make_batchset shuffle [] batch_size max_length_in max_length_out 0
          (some "output") = Except.error BatchsetErr.indexError := rfl
      rw [herr] at hplan
      cases hplan
    · by_cases hz : max_length_in = 0 ∨ max_length_out = 0
      · have hsorted := insertionSort_ne_nil (fun a b : Utt => b.ilen ≤ a.ilen) data hdata
        have herr : make_batchset shuffle data batch_size max_length_in max_length_out 0
            (some "output") = Except.error BatchsetErr.zeroDivisionError := by
          simp [make_batchset, if_neg hsorted, hz]
        rw [herr] at hplan
        cases hplan
      · push_neg at hz
        rw [make_batchset_output_eq shuffle data batch_size max_length_in max_length_out 0
          hdata hz.1 hz.2] at hplan
        simp only [Nat.lt_irrefl, if_false, Except.ok.injEq] at hplan
        rw [← hplan, adaptiveLoop_flatten _ _ _ _ _ 0 (by omega), List.drop_zero]
        exact List.perm_insertionSort _ data

/-- C1 witness: at a concrete input (policy `"input"`, three utterances,
batch size 2) the returned plan's groups concatenate to a permutation of
the input. -/
theorem make_batchset_partitions_witness :
    ([[⟨"c", 2, 7⟩], [⟨"b", 4, 6⟩], [⟨"a", 3, 5⟩]] : List (List Utt)).flatten.Perm
      [⟨"a", 3, 5⟩, ⟨"b", 4, 6⟩, ⟨"c", 2, 7⟩] :=
  make_batchset_partitions id [⟨"a", 3, 5⟩, ⟨"b", 4, 6⟩, ⟨"c", 2, 7⟩] 2 1 1
    (some "input") (Or.inr (Or.inl rfl)) (by decide) (List.Perm.refl _)
    [[⟨"c", 2, 7⟩], [⟨"b", 4, 6⟩], [⟨"a", 3, 5⟩]] rfl

/-- C2: the source intends to reject an unrecognized policy string, but line
89 of `bts_pytorch.py` constructs `ValueError(...)` without `raise`, so the
call returns normally with an empty plan instead of failing.  This theorem
evaluates the embedded code at such a failing input. -/
theorem make_batchset_unrecognized_key_returns_empty :
    make_batchset (fun l => l) [⟨"utt1", 3, 4⟩] 2 5 5 0 (some "foo")
      = Except.ok [] := rfl

/-- C4 counterexample: with an empty input (N = 0) and batch size 2, policy
`none` produces the plan `[[]]` whose (only, hence last) group has size 0,
while the claim demands size `N mod B = 0`, hence `B = 2`, for the last
group.  So the claim as stated fails at N = 0. -/
theorem make_batchset_none_group_sizes_cex :
    make_batchset (fun l => l) ([] : List Utt) 2 1 1 0 none = Except.ok [[]] ∧
    ¬(∀ lg, ([[]] : List (List Utt)).getLast? = some lg →
        lg.length = if ([] : List Utt).length % 2 = 0 then 2
                    else ([] : List Utt).length % 2) := by
  refine ⟨rfl, fun hcl => ?_⟩
  have := hcl [] rfl
  simp at this

/-- C4 (amended: at least one utterance): for policy `none` with batch size
B ≥ 1 and N ≥ 1 utterances, every group of the plan has size B except the
last, whose size is `N mod B` (or B when `N mod B = 0`). -/
theorem make_batchset_none_group_sizes
    (shuffle : List Utt → List Utt) (data : List Utt)
    (batch_size max_length_in max_length_out : Nat)
    (hbs : 1 ≤ batch_size) (hN : 1 ≤ data.length)
    (hshuffle : (shuffle data).Perm data)
    (plan : List (List Utt))
    (hplan : make_batchset shuffle data batch_size max_length_in max_length_out 0 none
      = Except.ok plan) :
    (∀ g ∈ plan.dropLast, g.length = batch_size) ∧
    (∀ lg, plan.getLast? = some lg →
      lg.length = if data.length % batch_size = 0 then batch_size
                  else data.length % batch_size) := by
  rw [make_batchset_none_eq shuffle data batch_size max_length_in max_length_out 0
    hbs] at hplan
  simp only [Nat.lt_irrefl, if_false, Except.ok.injEq] at hplan
  have hlen : (shuffle data).length = data.length := hshuffle.length_eq
  obtain ⟨hA, hB⟩ := sliceLoop_sizes (shuffle data) batch_size hbs
    ((shuffle data).length + 1) 0 (by omega) (by omega)
  rw [← hplan]
  refine ⟨hA, fun lg hlg => ?_⟩
  have := hB lg hlg
  rwa [Nat.sub_zero, hlen] at this

/-- C4 witness: three utterances, batch size 2, identity shuffle: groups
`[2, 1]`, the last of size `3 mod 2 = 1`. -/
theorem make_batchset_none_group_sizes_witness :
    (∀ g ∈ ([[⟨"a", 3, 5⟩, ⟨"b", 4, 6⟩], [⟨"c", 2, 7⟩]] : List (List Utt)).dropLast,
      g.length = 2) ∧
    (∀ lg, ([[⟨"a", 3, 5⟩, ⟨"b", 4, 6⟩], [⟨"c", 2, 7⟩]] : List (List Utt)).getLast?
        = some lg →
      lg.length = if ([⟨"a", 3, 5⟩, ⟨"b", 4, 6⟩, ⟨"c", 2, 7⟩] : List Utt).length % 2 = 0
                  then 2
                  else ([⟨"a", 3, 5⟩, ⟨"b", 4, 6⟩, ⟨"c", 2, 7⟩] : List Utt).length % 2) :=
  make_batchset_none_group_sizes id [⟨"a", 3, 5⟩, ⟨"b", 4, 6⟩, ⟨"c", 2, 7⟩] 2 1 1
    (by decide) (by decide) (List.Perm.refl _)
    [[⟨"a", 3, 5⟩, ⟨"b", 4, 6⟩], [⟨"c", 2, 7⟩]] rfl

/-- C5: for the adaptive policies `"input"` and `"output"`, with batch size
≥ 1 and positive length thresholds, every group of a returned plan (under
any batch-count cap) has size at least 1 and at most the configured batch
size. -/
theorem make_batchset_adaptive_group_bounds
    (shuffle : List Utt → List Utt) (data : List Utt)
    (batch_size max_length_in max_length_out num_batches : Nat)
    (batch_sort_key : Option String)
    (hkey : batch_sort_key = some "input" ∨ batch_sort_key = some "output")
    (hbs : 1 ≤ batch_size) (hmi : 1 ≤ max_length_in) (hmo : 1 ≤ max_length_out)
    (plan : List (List Utt))
    (hplan : make_batchset shuffle data batch_size max_length_in max_length_out
      num_batches batch_sort_key = Except.ok plan) :
    ∀ g ∈ plan, 1 ≤ g.length ∧ g.length ≤ batch_size := by
  rcases hkey with hk | hk <;> subst hk
  · by_cases hdata : data = []
    · subst hdata
      have herr : make_batchset shuffle [] batch_size max_length_in max_length_out
          num_batches (some "input") = Except.error BatchsetErr.indexError := rfl
      rw [herr] at hplan
      cases hplan
    · rw [make_batchset_input_eq shuffle data batch_size max_length_in max_length_out
        num_batches hdata (by omega) (by omega)] at hplan
      have hsorted := insertionSort_ne_nil (fun a b : Utt => b.olen ≤ a.olen) data hdata
      simp only [Except.ok.injEq] at hplan
      intro g hg
      rw [← hplan] at hg
      have hmem : g ∈ adaptiveLoop (data.insertionSort (fun a b => b.olen ≤ a.olen))
          batch_size max_length_in max_length_out
          ((data.insertionSort (fun a b => b.olen ≤ a.olen)).length + 1) 0 := by
        by_cases hnb : 0 < num_batches
        · rw [if_pos hnb] at hg
          exact List.take_subset _ _ hg
        · rwa [if_neg hnb] at hg
      exact adaptiveLoop_group_bounds _ batch_size max_length_in max_length_out hbs
        _ 0 (by omega) (by simpa using List.length_pos.mpr hsorted) g hmem
  · by_cases hdata : data = []
    · subst hdata
      have herr : make_batchset shuffle [] batch_size max_length_in max_length_out
          num_batches (some "output") = Except.error BatchsetErr.indexError := rfl
      rw [herr] at hplan
      cases hplan
    · rw [make_batchset_output_eq shuffle data batch_size max_length_in max_length_out
        num_batches hdata (by omega) (by omega)] at hplan
      have hsorted := insertionSort_ne_nil (fun a b : Utt => b.ilen ≤ a.ilen) data hdata
      simp only [Except.ok.injEq] at hplan
      intro g hg
      rw [← hplan] at hg
      have hmem : g ∈ adaptiveLoop (data.insertionSort (fun a b => b.ilen ≤ a.ilen))
          batch_size max_length_in max_length_out
          ((data.insertionSort (fun a b => b.ilen ≤ a.ilen)).length + 1) 0 := by
        by_cases hnb : 0 < num_batches
        · rw [if_pos hnb] at hg
          exact List.take_subset _ _ hg
        · rwa [if_neg hnb] at hg
      exact adaptiveLoop_group_bounds _ batch_size max_length_in max_length_out hbs
        _ 0 (by omega) (by simpa using List.length_pos.mpr hsorted) g hmem

/-- C5 witness: a long first utterance shrinks its group to size 1, which
stays within 1..2. -/
theorem make_batchset_adaptive_group_bounds_witness :
    1 ≤ ([⟨"a", 10, 20⟩] : List Utt).length ∧ ([⟨"a", 10, 20⟩] : List Utt).length ≤ 2 :=
  make_batchset_adaptive_group_bounds id [⟨"a", 10, 20⟩, ⟨"b", 2, 2⟩, ⟨"c", 3, 3⟩]
    2 8 8 0 (some "input") (Or.inl rfl) (by decide) (by decide) (by decide)
    [[⟨"a", 10, 20⟩], [⟨"c", 3, 3⟩, ⟨"b", 2, 2⟩]] rfl
    [⟨"a", 10, 20⟩] (by decide)

/-- C9: for the adaptive policies `"input"` and `"output"` the planner is
deterministic: the result does not depend on the shuffle function, the one
source of nondeterminism (`random.sample`) in `make_batchset`; the sort is
the stable `insertionSort`, so equal-key utterances keep their input
order. -/
theorem make_batchset_adaptive_deterministic
    (shuffle1 shuffle2 : List Utt → List Utt) (data : List Utt)
    (batch_size max_length_in max_length_out num_batches : Nat)
    (batch_sort_key : Option String)
    (hkey : batch_sort_key = some "input" ∨ batch_sort_key = some "output") :
    make_batchset shuffle1 data batch_size max_length_in max_length_out num_batches
        batch_sort_key
      = make_batchset shuffle2 data batch_size max_length_in max_length_out num_batches
        batch_sort_key := by
  rcases hkey with hk | hk <;> subst hk <;> rfl

/-- C9 witness: two maximally different shuffle functions give the same plan
for policy `"input"`. -/
theorem make_batchset_adaptive_deterministic_witness :
    make_batchset (fun l => l.reverse) [⟨"a", 3, 5⟩, ⟨"b", 4, 6⟩] 3 4 5 0 (some "input")
      = make_batchset (fun _ => []) [⟨"a", 3, 5⟩, ⟨"b", 4, 6⟩] 3 4 5 0 (some "input") :=
  make_batchset_adaptive_deterministic (fun l => l.reverse) (fun _ => [])
    [⟨"a", 3, 5⟩, ⟨"b", 4, 6⟩] 3 4 5 0 (some "input") (Or.inl rfl)

/-! ### Lemmas about the batch materializer -/

theorem getD_map_lt {α β : Type} (f : α → β) (l : List α) (i : Nat)
    (hi : i < l.length) (d : β) (d' : α) :
    (l.map f).getD i d = f (l.getD i d') := by
  rw [List.getD_eq_getElem?_getD, List.getElem?_map,
    List.getElem?_eq_getElem hi, List.getD_eq_getElem?_getD,
    List.getElem?_eq_getElem hi]
  rfl

theorem getD_range_map {α : Type} (l : List α) (d : α) :
    (List.range l.length).map (fun i => l.getD i d) = l := by
  induction l with
  | nil => rfl
  | cons a t ih =>
    rw [List.length_cons, List.range_succ_eq_map, List.map_cons, List.map_map]
    simp only [Function.comp_def, List.getD_cons_zero, List.getD_cons_succ]
    rw [ih]

theorem length_le_maxLen {α : Type} (xs : List (List α)) (x : List α) (hx : x ∈ xs) :
    x.length ≤ maxLen xs := by
  induction xs with
  | nil => cases hx
  | cons a l ih =>
    have hm : maxLen (a :: l) = max a.length (maxLen l) := by
      simp [maxLen]
    rcases List.mem_cons.mp hx with hx | hx
    · rw [hx, hm]
      exact le_max_left _ _
    · rw [hm]
      exact le_trans (ih hx) (le_max_right _ _)

theorem convFilteredIdx_eq_range (batch : List ConvUtt) :
    convFilteredIdx batch = List.range batch.length := by
  unfold convFilteredIdx
  have hys : (convYs batch).length = batch.length := by simp [convYs]
  rw [hys]
  apply List.filter_eq_self.mpr
  intro i hi
  rw [List.mem_range] at hi
  have hxl : i < (convXs batch).length := by simpa [convXs] using hi
  have hx : (convXs batch).getD i []
      = (batch.getD i default).tokenid ++ [convEos batch] := by
    unfold convXs
    exact getD_map_lt _ batch i hi [] default
  rw [decide_eq_true_eq, hx]
  simp

theorem convSortedIdx_perm (batch : List ConvUtt) :
    (convSortedIdx batch).Perm (List.range batch.length) := by
  unfold convSortedIdx
  rw [convFilteredIdx_eq_range]
  exact List.perm_insertionSort _ _

theorem sortedIdx_map_getD_perm (batch : List ConvUtt) {β : Type} (l : List β) (d : β)
    (hlen : l.length = batch.length) :
    ((convSortedIdx batch).map (fun i => l.getD i d)).Perm l := by
  have h := (convSortedIdx_perm batch).map (fun i => l.getD i d)
  rw [← hlen] at h
  rwa [getD_range_map] at h

theorem convXsSorted_perm (batch : List ConvUtt) :
    (convXsSorted batch).Perm (convXs batch) :=
  sortedIdx_map_getD_perm batch (convXs batch) [] (by simp [convXs])

theorem convYsSorted_perm (batch : List ConvUtt) :
    (convYsSorted batch).Perm (convYs batch) :=
  sortedIdx_map_getD_perm batch (convYs batch) [] (by simp [convYs])

theorem convIlens_sorted (batch : List ConvUtt) :
    List.Sorted (fun a b : Nat => b ≤ a) (convIlens batch) := by
  haveI hto : IsTotal Nat (fun i j =>
      ((convXs batch).getD j []).length ≤ ((convXs batch).getD i []).length) :=
    ⟨fun i j => Nat.le_total _ _⟩
  haveI htr : IsTrans Nat (fun i j =>
      ((convXs batch).getD j []).length ≤ ((convXs batch).getD i []).length) :=
    ⟨fun _ _ _ hab hbc => le_trans hbc hab⟩
  have hs := List.sorted_insertionSort (fun i j =>
      ((convXs batch).getD j []).length ≤ ((convXs batch).getD i []).length)
    (convFilteredIdx batch)
  unfold convIlens convXsSorted
  rw [List.map_map]
  exact List.pairwise_map.mpr hs

theorem batch_converter_ok_inv (batch : List ConvUtt) (out : MaterializedBatch)
    (hout : batch_converter batch = Except.ok out) :
    out = { xs := convXsPad batch, ilens := convIlens batch, ys := convYsPad batch,
            labels := convLabels batch, olens := convOlens batch } := by
  by_cases hb : batch = []
  · subst hb
    cases hout
  · unfold batch_converter at hout
    rw [if_neg hb] at hout
    injection hout with h
    exact h.symm

/-! ### Claim theorems for the batch materializer -/

/-- C8: the materializer appends the eos id to every token sequence, orders
the rows descending by token length (eos included), right-pads the token
rows with 0 to the batch maximum, and returns `ilens` as the true token
lengths in row order; in particular token lengths 5, 2, 8 give
`ilens = [9, 6, 3]` and a token tensor of width 9. -/
theorem batch_converter_materializes (batch : List ConvUtt) (out : MaterializedBatch)
    (hout : batch_converter batch = Except.ok out) :
    (convXsSorted batch).Perm (batch.map (fun b => b.tokenid ++ [convEos batch])) ∧
    out.ilens = (convXsSorted batch).map List.length ∧
    List.Sorted (fun a b : Nat => b ≤ a) out.ilens ∧
    out.xs = (convXsSorted batch).map
      (fun x => x ++ List.replicate (maxLen (convXsSorted batch) - x.length) 0) ∧
    (batch_converter [⟨10, List.replicate 5 1, [[0]]⟩, ⟨10, List.replicate 2 1, [[0]]⟩,
        ⟨10, List.replicate 8 1, [[0]]⟩]).map (fun o => (o.ilens, o.xs.map List.length))
      = Except.ok ([9, 6, 3], [9, 9, 9]) := by
  have hinv := batch_converter_ok_inv batch out hout
  subst hinv
  exact ⟨convXsSorted_perm batch, rfl, convIlens_sorted batch, rfl, rfl⟩

/-- C8 witness: the materializer applied to a concrete two-utterance group. -/
theorem batch_converter_materializes_witness :
    (convXsSorted [⟨10, [1], [[5], [6]]⟩, ⟨10, [1, 2], [[7]]⟩]).Perm
      (([⟨10, [1], [[5], [6]]⟩, ⟨10, [1, 2], [[7]]⟩] : List ConvUtt).map
        (fun b => b.tokenid ++ [convEos [⟨10, [1], [[5], [6]]⟩, ⟨10, [1, 2], [[7]]⟩]])) ∧
    (⟨[[1, 2, 9], [1, 9, 0]], [3, 2], [[[7], [0]], [[5], [6]]], [[1, 1], [0, 1]],
        [1, 2]⟩ : MaterializedBatch).ilens
      = (convXsSorted [⟨10, [1], [[5], [6]]⟩, ⟨10, [1, 2], [[7]]⟩]).map List.length ∧
    List.Sorted (fun a b : Nat => b ≤ a)
      (⟨[[1, 2, 9], [1, 9, 0]], [3, 2], [[[7], [0]], [[5], [6]]], [[1, 1], [0, 1]],
        [1, 2]⟩ : MaterializedBatch).ilens ∧
    (⟨[[1, 2, 9], [1, 9, 0]], [3, 2], [[[7], [0]], [[5], [6]]], [[1, 1], [0, 1]],
        [1, 2]⟩ : MaterializedBatch).xs
      = (convXsSorted [⟨10, [1], [[5], [6]]⟩, ⟨10, [1, 2], [[7]]⟩]).map
        (fun x => x ++ List.replicate
          (maxLen (convXsSorted [⟨10, [1], [[5], [6]]⟩, ⟨10, [1, 2], [[7]]⟩]) - x.length) 0) ∧
    (batch_converter [⟨10, List.replicate 5 1, [[0]]⟩, ⟨10, List.replicate 2 1, [[0]]⟩,
        ⟨10, List.replicate 8 1, [[0]]⟩]).map (fun o => (o.ilens, o.xs.map List.length))
      = Except.ok ([9, 6, 3], [9, 9, 9]) :=
  batch_converter_materializes [⟨10, [1], [[5], [6]]⟩, ⟨10, [1, 2], [[7]]⟩]
    ⟨[[1, 2, 9], [1, 9, 0]], [3, 2], [[[7], [0]], [[5], [6]]], [[1, 1], [0, 1]], [1, 2]⟩
    rfl

/-- C10: the empty-sequence filter removes nothing (the appended eos makes
every token sequence nonempty), so the sorted index list is a permutation
of all group positions, and the materialized batch has exactly one row per
group member. -/
theorem batch_converter_drops_nothing (batch : List ConvUtt) (out : MaterializedBatch)
    (hout : batch_converter batch = Except.ok out) :
    convFilteredIdx batch = List.range batch.length ∧
    (convSortedIdx batch).Perm (List.range batch.length) ∧
    (convYsSorted batch).Perm (batch.map (fun b => b.feat)) ∧
    out.xs.length = batch.length ∧ out.ys.length = batch.length := by
  have hinv := batch_converter_ok_inv batch out hout
  subst hinv
  have hlen := (convSortedIdx_perm batch).length_eq
  rw [List.length_range] at hlen
  refine ⟨convFilteredIdx_eq_range batch, convSortedIdx_perm batch,
    convYsSorted_perm batch, ?_, ?_⟩
  · simp [convXsPad, pad_list, convXsSorted, hlen]
  · simp [convYsPad, pad_list, convYsSorted, hlen]

/-- C10 witness: a concrete two-utterance group materializes to two rows and
an identity filter. -/
theorem batch_converter_drops_nothing_witness :
    convFilteredIdx [⟨10, [1], [[5], [6]]⟩, ⟨10, [1, 2], [[7]]⟩]
      = List.range ([⟨10, [1], [[5], [6]]⟩, ⟨10, [1, 2], [[7]]⟩] : List ConvUtt).length ∧
    (convSortedIdx [⟨10, [1], [[5], [6]]⟩, ⟨10, [1, 2], [[7]]⟩]).Perm
      (List.range ([⟨10, [1], [[5], [6]]⟩, ⟨10, [1, 2], [[7]]⟩] : List ConvUtt).length) ∧
    (convYsSorted [⟨10, [1], [[5], [6]]⟩, ⟨10, [1, 2], [[7]]⟩]).Perm
      (([⟨10, [1], [[5], [6]]⟩, ⟨10, [1, 2], [[7]]⟩] : List ConvUtt).map
        (fun b => b.feat)) ∧
    (⟨[[1, 2, 9], [1, 9, 0]], [3, 2], [[[7], [0]], [[5], [6]]], [[1, 1], [0, 1]],
        [1, 2]⟩ : MaterializedBatch).xs.length
      = ([⟨10, [1], [[5], [6]]⟩, ⟨10, [1, 2], [[7]]⟩] : List ConvUtt).length ∧
    (⟨[[1, 2, 9], [1, 9, 0]], [3, 2], [[[7], [0]], [[5], [6]]], [[1, 1], [0, 1]],
        [1, 2]⟩ : MaterializedBatch).ys.length
      = ([⟨10, [1], [[5], [6]]⟩, ⟨10, [1, 2], [[7]]⟩] : List ConvUtt).length :=
  batch_converter_drops_nothing [⟨10, [1], [[5], [6]]⟩, ⟨10, [1, 2], [[7]]⟩]
    ⟨[[1, 2, 9], [1, 9, 0]], [3, 2], [[[7], [0]], [[5], [6]]], [[1, 1], [0, 1]], [1, 2]⟩
    rfl

/-- C7 counterexample: take a group whose first utterance has true feature
length L = 0 (and a second of length 2, so the padded width is M = 2).  Both
candidate boundaries of the claim, L-1 and L, lie at or below index 0, so
the claim predicts stop label 1 at index 0 of that row; the code
(`labels[i, l - 1:] = 1` with l = 0, a negative Python slice) writes 1
only at the last padded index, leaving label 0 at index 0.  So no fixed
choice among L-1 and L satisfies the claim for all utterances. -/
theorem batch_converter_stop_labels_cex :
    (batch_converter [⟨1, [], []⟩, ⟨1, [], [[0], [0]]⟩]).map
        (fun o => (o.olens.getD 0 0, (o.labels.getD 0 []).getD 0 0))
      = Except.ok (0, 0) ∧ (0 : Int) ≠ 1 :=
  ⟨rfl, by decide⟩

/-- C7 (amended: utterances with true feature length L ≥ 1): the stop-label
row of an utterance with true feature length L in a batch padded to width M
is 0 on indices below L-1 and 1 from index L-1 on: the boundary implemented
by the source is the L-1 candidate.  (An utterance with L = 0 instead gets
label 1 only at the final padded index, by Python negative slicing.) -/
theorem batch_converter_stop_labels (batch : List ConvUtt) (out : MaterializedBatch)
    (hout : batch_converter batch = Except.ok out)
    (i L : Nat) (hi : i < out.olens.length) (hL : out.olens.getD i 0 = L) (h1 : 1 ≤ L)
    (j : Nat) (hj : j < (out.labels.getD i []).length) :
    (out.labels.getD i []).getD j 0 = if j < L - 1 then 0 else 1 := by
  have hinv := batch_converter_ok_inv batch out hout
  subst hinv
  simp only at hi hL hj ⊢
  have hylen : i < (convYsSorted batch).length := by
    simpa [convOlens] using hi
  have hrow : (convLabels batch).getD i []
      = stopLabelRow ((convOlens batch).getD i 0 : Int)
          (maxLen (convYsSorted batch)) := by
    unfold convLabels
    exact getD_map_lt _ (convOlens batch) i (by simpa [convOlens] using hi) [] 0
  rw [hrow, hL] at hj ⊢
  have hLM : L ≤ maxLen (convYsSorted batch) := by
    have hmem : (convYsSorted batch).getD i [] ∈ convYsSorted batch := by
      rw [List.getD_eq_getElem?_getD, List.getElem?_eq_getElem hylen]
      exact List.getElem_mem _
    have hLi : (convOlens batch).getD i 0 = ((convYsSorted batch).getD i []).length := by
      unfold convOlens
      exact getD_map_lt _ (convYsSorted batch) i hylen 0 []
    rw [← hL, hLi]
    exact length_le_maxLen _ _ hmem
  have hjM : j < maxLen (convYsSorted batch) := by
    simpa [stopLabelRow] using hj
  have hentry : (stopLabelRow (L : Int) (maxLen (convYsSorted batch))).getD j 0
      = if sliceStartIdx ((L : Int) - 1) (maxLen (convYsSorted batch)) ≤ j
        then 1 else 0 := by
    unfold stopLabelRow
    rw [getD_map_lt _ (List.range (maxLen (convYsSorted batch))) j
      (by simpa using hjM) 0 0]
    have hr : (List.range (maxLen (convYsSorted batch))).getD j 0 = j := by
      rw [List.getD_eq_getElem?_getD, List.getElem?_range hjM, Option.getD_some]
    rw [hr]
  have hstart : sliceStartIdx ((L : Int) - 1) (maxLen (convYsSorted batch)) = L - 1 := by
    unfold sliceStartIdx
    rw [if_pos (by omega)]
    have ht : ((L : Int) - 1).toNat = L - 1 := by omega
    rw [ht]
    omega
  rw [hentry, hstart]
  by_cases hcase : j < L - 1
  · rw [if_pos hcase, if_neg (by omega)]
  · rw [if_neg hcase, if_pos (by omega)]

/-- C7 witness: in the concrete two-row batch, the row with true length
L = 2 in a width-2 batch has label 0 at index 0 (below the L-1 boundary). -/
theorem batch_converter_stop_labels_witness :
    ((⟨[[1, 2, 9], [1, 9, 0]], [3, 2], [[[7], [0]], [[5], [6]]], [[1, 1], [0, 1]],
        [1, 2]⟩ : MaterializedBatch).labels.getD 1 []).getD 0 0
      = if (0 : Nat) < 2 - 1 then 0 else 1 :=
  batch_converter_stop_labels [⟨10, [1], [[5], [6]]⟩, ⟨10, [1, 2], [[7]]⟩]
    ⟨[[1, 2, 9], [1, 9, 0]], [3, 2], [[[7], [0]], [[5], [6]]], [[1, 1], [0, 1]], [1, 2]⟩
    rfl 1 2 (by decide) rfl (by decide) 0 (by decide)

/-! ### Claim theorems for the updater and the evaluater -/

/-- C3: in an iteration that is not skipped for being smaller than the gpu
count, if the gradient norm returned by clipping is NaN the optimizer step
is skipped (the parameters are unchanged) and the NaN warning is logged;
if the norm is a finite value the optimizer step is applied to the clipped
gradients. -/
theorem update_core_nan_guard {P G A : Type} (num_gpu : Nat) (batch : List A)
    (backward : P → List A → G) (clip : G → G × FloatVal) (optStep : P → G → P)
    (s : TrainState P G) (hbatch : ¬ batch.length < num_gpu) :
    ((clip (backward s.params batch)).2 = FloatVal.nan →
      (update_core num_gpu batch backward clip optStep s).1.params = s.params ∧
      "grad norm is nan. Do not update model."
        ∈ (update_core num_gpu batch backward clip optStep s).2) ∧
    (∀ q, (clip (backward s.params batch)).2 = FloatVal.fin q →
      (update_core num_gpu batch backward clip optStep s).1.params
        = optStep s.params (clip (backward s.params batch)).1) := by
  constructor
  · intro hnan
    simp only [update_core, if_neg hbatch]
    rw [hnan]
    simp [FloatVal.isNan]
  · intro q hq
    simp only [update_core, if_neg hbatch]
    rw [hq]
    simp [FloatVal.isNan]

/-- A concrete backward pass for the C3 witness. -/
def wBackward : Int → List Unit → Int := fun p _ => p

/-- A concrete clipping function returning a NaN norm, for the C3 witness. -/
def wClip : Int → Int × FloatVal := fun g => (g, FloatVal.nan)

/-- A concrete optimizer step for the C3 witness. -/
def wStep : Int → Int → Int := fun p g => p + g

/-- A concrete train state for the C3 witness. -/
def wState : TrainState Int Int := ⟨5, 0⟩

/-- C3 witness: the guard applied to a one-element batch on one gpu with a
NaN-producing clip. -/
theorem update_core_nan_guard_witness :
    ((wClip (wBackward wState.params [()])).2 = FloatVal.nan →
      (update_core 1 [()] wBackward wClip wStep wState).1.params = wState.params ∧
      "grad norm is nan. Do not update model."
        ∈ (update_core 1 [()] wBackward wClip wStep wState).2) ∧
    (∀ q, (wClip (wBackward wState.params [()])).2 = FloatVal.fin q →
      (update_core 1 [()] wBackward wClip wStep wState).1.params
        = wStep wState.params (wClip (wBackward wState.params [()])).1) :=
  update_core_nan_guard 1 [()] wBackward wClip wStep wState (by decide)

/-- C6 counterexample: with a single batch whose evaluation raises, the
embedded `evaluate` returns with the model still in evaluation mode: the
source calls `self.model.train()` only after the loop, with no
`try`/`finally`, so an exception inside the pass skips the restoration. -/
theorem evaluate_restores_train_mode_cex :
    (evaluate [()] (fun _ => (Except.error () : Except Unit Unit))).1 = Mode.eval ∧
    Mode.eval ≠ Mode.train :=
  ⟨rfl, by decide⟩

/-- C6 (amended): `evaluate` restores the model to training mode whenever
the whole pass completes without an exception; when some batch raises, the
exception propagates out of `evaluate` and the model is left in evaluation
mode (there is no scoped restoration). -/
theorem evaluate_mode_restoration {B E Obs : Type} (batches : List B)
    (runBatch : B → Except E Obs) :
    (∀ os, runBatches runBatch batches = Except.ok os →
      (evaluate batches runBatch).1 = Mode.train) ∧
    (∀ e, runBatches runBatch batches = Except.error e →
      (evaluate batches runBatch).1 = Mode.eval ∧
      (evaluate batches runBatch).2 = Except.error e) := by
  refine ⟨fun os hos => ?_, fun e he => ?_⟩
  · unfold evaluate
    rw [hos]
  · unfold evaluate
    rw [he]
    exact ⟨rfl, rfl⟩

/-- C6 witness: a one-batch pass that succeeds ends in training mode. -/
theorem evaluate_mode_restoration_witness :
    (evaluate [()] (fun _ => (Except.ok (0 : Nat) : Except Unit Nat))).1 = Mode.train :=
  (evaluate_mode_restoration [()] (fun _ => (Except.ok (0 : Nat) : Except Unit Nat))).1
    [0] rfl

end Bts
